import Mathlib

/-!
Verification of the skill-gap analysis engine of the Job-Market-Analyzer
repository.  The Python sources under `src/` are shallowly embedded as
executable Lean definitions: dataclasses become structures, methods become
pure functions, in-place list mutation becomes list reconstruction, and the
one place where object identity is observable (`_identify_skill_gaps`
sharing `Skill` objects with its callers) additionally gets an explicit
heap-based embedding.  Python `float` percentages are modelled as `ℚ`
(exact rational arithmetic) and `round(x, 2)` as rounding to an integer
number of hundredths.
-/

/-! ## Python string primitives

The engine compares skills by `name.lower()` and normalises stored names
with `name.strip().title()` (`Skill.__post_init__` in `src/models/skill.py`).
All skill names in the repository are ASCII, where Lean's `Char.toLower`,
`Char.toUpper` and `Char.isAlpha` agree with Python's per-character
behaviour. -/

/-- Python `str.lower()` (ASCII). -/
def pyLower (s : String) : String :=
  String.mk (s.data.map Char.toLower)

/-- Python `str.strip()`: remove leading and trailing whitespace. -/
def pyStrip (s : String) : String :=
  String.mk (((s.data.dropWhile Char.isWhitespace).reverse.dropWhile
      Char.isWhitespace).reverse)

/-- One step of Python `str.title()`: the boolean records whether the
previous character was alphabetic. -/
def pyTitleStep (acc : List Char × Bool) (c : Char) : List Char × Bool :=
  if c.isAlpha then
    (acc.1 ++ [if acc.2 then c.toLower else c.toUpper], true)
  else
    (acc.1 ++ [c], false)

/-- Python `str.title()` (ASCII): the first letter of every alphabetic run
is upper-cased, the rest lower-cased. -/
def pyTitle (s : String) : String :=
  String.mk (s.data.foldl pyTitleStep ([], false)).1

/-- The name normalisation applied by `Skill.__post_init__`
(`src/models/skill.py`, line 30): `self.name = self.name.strip().title()`. -/
def normName (s : String) : String :=
  pyTitle (pyStrip s)

/-- Python `"c" * n` for building the `"=" * 70` style separator lines. -/
def repeatChar (c : Char) (n : Nat) : String :=
  String.mk (List.replicate n c)

/-! ## Skill model (`src/models/skill.py`) -/

/-- The `Skill` dataclass: a named skill with category, technical flag and
a frequency counter.  The stored `name` is the value after
`__post_init__` normalisation; `frequency` only ever counts upwards, so it
is modelled as `Nat`. -/
structure Skill where
  name : String
  category : String
  is_technical : Bool
  frequency : Nat
deriving DecidableEq

instance : Inhabited Skill := ⟨⟨"", "Technical", true, 0⟩⟩

/-- The `Skill(...)` constructor including `__post_init__`:
the stored name is `name.strip().title()`. -/
def mkSkill (name category : String) (is_technical : Bool) (frequency : Nat) : Skill :=
  ⟨normName name, category, is_technical, frequency⟩

/-- `Skill.increment_frequency` (`skill.py`, lines 32-37). -/
def Skill.increment_frequency (s : Skill) : Skill :=
  { s with frequency := s.frequency + 1 }

/-- `Skill.matches` (`skill.py`, lines 39-49): case-insensitive name
comparison. -/
def Skill.matches (s other : Skill) : Bool :=
  pyLower s.name == pyLower other.name

/-! ## Resume and Job (`src/models/resume.py`, `src/models/job.py`)

Only the fields read by the analysis engine are embedded; the purely
presentational fields (`file_type`, `user_name`, `email`, `phone`,
`location`, `salary`, `url`, `posted_date`) never reach the engine. -/

/-- The `Resume` dataclass (engine-relevant fields). -/
structure Resume where
  filename : String
  extracted_text : String
  skills : List Skill
deriving DecidableEq

/-- The `Job` dataclass (engine-relevant fields). -/
structure Job where
  title : String
  company : String
  description : String
  required_skills : List Skill
deriving DecidableEq

/-- The shared body of `Resume.add_skill` (`resume.py`, lines 57-71) and
`Job.add_required_skill` (`job.py`, lines 51-65), whose Python code is
identical: walk the list, increment the first case-insensitive match,
otherwise append the new skill. -/
def addSkillToList : List Skill → Skill → List Skill
  | [], skill => [skill]
  | existing :: rest, skill =>
    if existing.matches skill then existing.increment_frequency :: rest
    else existing :: addSkillToList rest skill

/-- `Resume.add_skill`. -/
def Resume.add_skill (r : Resume) (skill : Skill) : Resume :=
  { r with skills := addSkillToList r.skills skill }

/-- `Job.add_required_skill`. -/
def Job.add_required_skill (j : Job) (skill : Skill) : Job :=
  { j with required_skills := addSkillToList j.required_skills skill }

/-! ## Learning resources (`src/models/learning_resource.py`) -/

/-- The `Platform` enum. -/
inductive Platform where
  | UDEMY | COURSERA | YOUTUBE | PLURALSIGHT | LINKEDIN_LEARNING
  | EDEX | FREECODECAMP | OTHER
deriving DecidableEq

/-- `Platform.value` strings. -/
def Platform.value : Platform → String
  | .UDEMY => "Udemy"
  | .COURSERA => "Coursera"
  | .YOUTUBE => "YouTube"
  | .PLURALSIGHT => "Pluralsight"
  | .LINKEDIN_LEARNING => "LinkedIn Learning"
  | .EDEX => "edX"
  | .FREECODECAMP => "freeCodeCamp"
  | .OTHER => "Other"

/-- The `DifficultyLevel` enum. -/
inductive DifficultyLevel where
  | BEGINNER | INTERMEDIATE | ADVANCED | ALL_LEVELS
deriving DecidableEq

/-- `DifficultyLevel.value` strings. -/
def DifficultyLevel.value : DifficultyLevel → String
  | .BEGINNER => "Beginner"
  | .INTERMEDIATE => "Intermediate"
  | .ADVANCED => "Advanced"
  | .ALL_LEVELS => "All Levels"

/-- The `LearningResource` dataclass.  `rating` is an optional float,
modelled as `Option ℚ`. -/
structure LearningResource where
  skill_name : String
  resource_title : String
  resource_url : String
  platform : Platform
  duration_weeks : Nat
  difficulty_level : DifficultyLevel
  description : Option String
  rating : Option ℚ
  price : String
deriving DecidableEq

/-! ## AnalysisResult (`src/models/analysis_result.py`)

The back-references `resume` and `analyzed_jobs` are plain copies of the
engine's inputs and are not read by any function verified here, so they
are not embedded as fields. -/

/-- The `AnalysisResult` dataclass (engine-relevant fields).
`match_percentage` is a Python float percentage, modelled as `ℚ`. -/
structure AnalysisResult where
  matching_skills : List Skill
  missing_skills : List Skill
  match_percentage : ℚ
  recommended_resources : List LearningResource
  learning_path : String
  cluster_id : Option Nat
  jobs_in_same_cluster : Nat
deriving DecidableEq

/-- A freshly constructed `AnalysisResult(...)` with all collection fields
at their dataclass defaults (`analysis_result.py`, lines 31-39). -/
def emptyResult : AnalysisResult :=
  ⟨[], [], 0, [], "", none, 0⟩

/-- `AnalysisResult.add_matching_skill` (`analysis_result.py`, lines
68-77): append unless a case-insensitive duplicate is already present;
a duplicate is silently dropped (no frequency update). -/
def AnalysisResult.add_matching_skill (r : AnalysisResult) (skill : Skill) :
    AnalysisResult :=
  if r.matching_skills.any (fun s => s.matches skill) then r
  else { r with matching_skills := r.matching_skills ++ [skill] }

/-- The loop body of `AnalysisResult.add_missing_skill`
(`analysis_result.py`, lines 79-94): increment the first case-insensitive
match; if none matches, the Python code executes `skill.frequency = 1`
and appends, so a newly appended skill always lands with frequency 1. -/
def addMissingToList : List Skill → Skill → List Skill
  | [], skill => [{ skill with frequency := 1 }]
  | existing :: rest, skill =>
    if existing.matches skill then existing.increment_frequency :: rest
    else existing :: addMissingToList rest skill

/-- `AnalysisResult.add_missing_skill`. -/
def AnalysisResult.add_missing_skill (r : AnalysisResult) (skill : Skill) :
    AnalysisResult :=
  { r with missing_skills := addMissingToList r.missing_skills skill }

/-! ## Skill analyzer (`src/services/skill_analyzer.py`)

Python dicts preserve insertion order, so `all_job_skills` is embedded as
an insertion-ordered association list. -/

/-- In-place `all_job_skills[key].increment_frequency()` on an association
list: update the (unique) entry with the given key. -/
def incrementAt : List (String × Skill) → String → List (String × Skill)
  | [], _ => []
  | (k, v) :: rest, key =>
    if k = key then (k, v.increment_frequency) :: rest
    else (k, v) :: incrementAt rest key

/-- The body of the inner loop of `_identify_skill_gaps`
(`skill_analyzer.py`, lines 112-126): first occurrence of a lowercased
name inserts a fresh aggregate `Skill(...)` with frequency 1, later
occurrences increment the stored aggregate. -/
def collectStep (dict : List (String × Skill)) (skill : Skill) :
    List (String × Skill) :=
  let key := pyLower skill.name
  if key ∈ dict.map Prod.fst then incrementAt dict key
  else dict ++ [(key, mkSkill skill.name skill.category skill.is_technical 1)]

/-- The nested `for job in jobs: for skill in job.required_skills:` loop
building `all_job_skills`. -/
def collectJobSkills (jobs : List Job) : List (String × Skill) :=
  jobs.foldl (fun dict job => job.required_skills.foldl collectStep dict) []

/-- The body of the categorisation loop of `_identify_skill_gaps`
(`skill_analyzer.py`, lines 132-138). -/
def gapStep (user_skill_names : List String) (result : AnalysisResult)
    (kv : String × Skill) : AnalysisResult :=
  if kv.1 ∈ user_skill_names then result.add_matching_skill kv.2
  else result.add_missing_skill kv.2

/-- `SkillAnalyzer._identify_skill_gaps` (`skill_analyzer.py`, lines
95-141): aggregate all job-required skills by lowercased name, then route
each aggregate to `matching_skills` or `missing_skills` according to
whether the resume has a skill of that name. -/
def _identify_skill_gaps (resume : Resume) (jobs : List Job)
    (result : AnalysisResult) : AnalysisResult :=
  let all_job_skills := collectJobSkills jobs
  let user_skill_names := resume.skills.map (fun s => pyLower s.name)
  all_job_skills.foldl (gapStep user_skill_names) result

/-- `SkillAnalyzer._create_master_skill_list` (`skill_analyzer.py`, lines
202-225): the set of lowercased names over resume plus jobs, returned as
a sorted list.  Python's `sorted(list(set))` is embedded as
`insertionSort` of a deduplicated list; which duplicate representative
survives is irrelevant because duplicates are equal strings. -/
def _create_master_skill_list (resume : Resume) (jobs : List Job) :
    List String :=
  let all_skills := ((resume.skills.map (fun s => pyLower s.name)) ++
    jobs.flatMap (fun j => j.required_skills.map (fun s => pyLower s.name))).dedup
  List.insertionSort (fun a b => a ≤ b) all_skills

/-- Python `round(x, 2)` on the engine's percentage values, modelled
exactly over `ℚ`: round to the nearest hundredth.  (CPython rounds
half-to-even on binary floats; no engine value is an exact tie, and no
claim depends on tie behaviour.) -/
def pyRound2 (q : ℚ) : ℚ :=
  (round (q * 100) : ℚ) / 100

/-- `SkillAnalyzer._calculate_simple_overlap` (`skill_analyzer.py`, lines
254-284): the clustering fallback score.  The Python sets of lowercased
names are embedded as deduplicated lists; `len(required ∩ user)` is the
number of distinct required names present among the user's names. -/
def _calculate_simple_overlap (resume : Resume) (jobs : List Job) : ℚ :=
  if jobs.isEmpty then 0
  else
    let all_required_skills :=
      (jobs.flatMap (fun j => j.required_skills.map (fun s => pyLower s.name))).dedup
    if all_required_skills.isEmpty then 0
    else
      let user_skills := (resume.skills.map (fun s => pyLower s.name)).dedup
      let matching_count :=
        (all_required_skills.filter (fun n => n ∈ user_skills)).length
      pyRound2 ((matching_count : ℚ) / (all_required_skills.length : ℚ) * 100)

/-! ## Learning path generator (`src/services/learning_path_generator.py`)

The `DatabaseManager` resource catalog is an out-of-scope collaborator
(spec section 6); it enters the embedding as an explicit lookup function
`db : String → Nat → List LearningResource` so that theorems can quantify
over every possible catalog.  `datetime.now()` enters as an explicit
`now : String`. -/

/-- `LearningPathGenerator._prioritize_skills` (lines 69-84): keep the
first `max_skills` skills (the input is already frequency-sorted). -/
def _prioritize_skills (skills : List Skill) (max_skills : Nat) : List Skill :=
  skills.take max_skills

/-- Insertion-ordered dict write `d[key] = value`. -/
def updateAssoc {β : Type} : List (String × β) → String → β → List (String × β)
  | [], key, value => [(key, value)]
  | (k, v) :: rest, key, value =>
    if k = key then (k, value) :: rest
    else (k, v) :: updateAssoc rest key value

/-- `LearningPathGenerator._fetch_resources_for_skills` (lines 86-127):
query the catalog for up to 3 resources per skill, keyed by skill name. -/
def _fetch_resources_for_skills (db : String → Nat → List LearningResource)
    (skills : List Skill) : List (String × List LearningResource) :=
  skills.foldl (fun acc skill => updateAssoc acc skill.name (db skill.name 3)) []

/-- `LearningPathGenerator._generate_milestones` (lines 186-206): two
milestones per skill plus two fixed week-level milestones. -/
def _generate_milestones (week : Nat) (skills : List Skill) : List String :=
  let _ := week
  (skills.flatMap (fun skill =>
    ["Complete " ++ skill.name ++ " tutorial/course",
     "Build a small project using " ++ skill.name])) ++
  ["Document your learning progress",
   "Update your resume with new skills"]

/-- One emitted week of the plan (the `week_data` dict of lines 171-176). -/
structure WeekData where
  week_number : Nat
  skills : List Skill
  resources : List (String × List LearningResource)
  milestones : List String
deriving DecidableEq

/-- The `for week in range(1, 5)` loop of
`_distribute_skills_across_weeks` (lines 163-182) with its early `break`:
the fuel argument counts the remaining loop iterations (4 at the top). -/
def distributeGo (skills : List Skill)
    (skill_resources : List (String × List LearningResource)) :
    Nat → Nat → List WeekData
  | _, 0 => []
  | week, fuel + 1 =>
    let start_idx := (week - 1) * 2
    let week_skills := (skills.drop start_idx).take 2
    if week_skills.isEmpty then []
    else
      { week_number := week
        skills := week_skills
        resources := week_skills.map (fun skill =>
          (skill.name, ((skill_resources.lookup skill.name).getD [])))
        milestones := _generate_milestones week week_skills } ::
      distributeGo skills skill_resources (week + 1) fuel

/-- `LearningPathGenerator._distribute_skills_across_weeks` (lines
145-184): 2 skills per week over at most 4 weeks, stopping at the first
empty slice. -/
def _distribute_skills_across_weeks (skills : List Skill)
    (skill_resources : List (String × List LearningResource)) : List WeekData :=
  distributeGo skills skill_resources 1 4

/-- Rendering of a Python float in an f-string, modelled as the `ℚ`
representation (no claim depends on the exact digits). -/
def floatRepr (q : ℚ) : String :=
  toString q

/-- The per-resource lines of `_format_learning_path` (lines 257-264):
the top 2 resources of a skill, with the rating line only when a rating
is present. -/
def resourceLines (idx : Nat) (resource : LearningResource) : List String :=
  ["   " ++ toString idx ++ ". " ++ resource.resource_title ++ " (" ++
      resource.platform.value ++ ")",
   "      ↳ " ++ resource.resource_url] ++
  (match resource.rating with
   | some rating =>
     ["      ⭐ Rating: " ++ floatRepr rating ++ "/5.0 | Duration: " ++
        toString resource.duration_weeks ++ " week(s) | Level: " ++
        resource.difficulty_level.value]
   | none => [])

/-- The per-skill resource block of `_format_learning_path` (lines
253-269), including the generic fallback lines for a skill without
catalog resources. -/
def skillBlock (resources : List (String × List LearningResource))
    (skill : Skill) : List String :=
  ("📖 " ++ skill.name ++ " Learning Resources:") ::
  (let skill_resources := (resources.lookup skill.name).getD []
   if skill_resources.isEmpty then
     ["   • Search online for \x27" ++ skill.name ++ " tutorial\x27",
      "   • Check platforms: Udemy, Coursera, YouTube"]
   else
     ((skill_resources.take 2).enumFrom 1).flatMap
       (fun p => resourceLines p.1 p.2)) ++
  [""]

/-- The per-week block of `_format_learning_path` (lines 236-275). -/
def weekBlock (week_data : WeekData) : List String :=
  [repeatChar '─' 70,
   "📅 WEEK " ++ toString week_data.week_number,
   repeatChar '─' 70,
   "",
   "🎯 Focus Skills: " ++
     String.intercalate ", " (week_data.skills.map (fun s => s.name)),
   ""] ++
  week_data.skills.flatMap (skillBlock week_data.resources) ++
  ["🏆 Week " ++ toString week_data.week_number ++ " Milestones:"] ++
  ((week_data.milestones.take 4).enumFrom 1).map
    (fun p => "   " ++ toString p.1 ++ ". " ++ p.2) ++
  [""]

/-- `LearningPathGenerator._format_learning_path` (lines 208-293):
header, one block per week, fixed tips footer. -/
def _format_learning_path (now : String) (weekly_plan : List WeekData)
    (result : AnalysisResult) : String :=
  String.intercalate "\n"
    ([repeatChar '=' 70,
      "YOUR PERSONALIZED 4-WEEK LEARNING PATH",
      repeatChar '=' 70,
      "",
      "Generated on: " ++ now,
      "Overall Match: " ++ floatRepr result.match_percentage ++ "%",
      "Skills to Learn: " ++ toString result.missing_skills.length,
      ""] ++
     weekly_plan.flatMap weekBlock ++
     [repeatChar '=' 70,
      "💡 TIPS FOR SUCCESS",
      repeatChar '=' 70,
      "",
      "• Dedicate 1-2 hours daily to learning",
      "• Build projects to reinforce concepts",
      "• Join online communities (Stack Overflow, Reddit, Discord)",
      "• Document your progress on GitHub",
      "• Update your resume as you learn new skills",
      "• Don\x27t rush - deep understanding beats speed",
      "",
      repeatChar '=' 70,
      "Good luck on your learning journey! 🚀",
      repeatChar '=' 70])

/-- The `lines` list of `LearningPathGenerator._generate_no_gaps_message`
(lines 295-322). -/
def noGapsLines (result : AnalysisResult) : List String :=
  [repeatChar '=' 70,
   "🎉 CONGRATULATIONS!",
   repeatChar '=' 70,
   "",
   "Overall Match: " ++ floatRepr result.match_percentage ++ "%",
   "",
   "You already have all the key skills required for the analyzed jobs!",
   "Consider focusing on:",
   "",
   "• Advanced topics in your existing skills",
   "• Emerging technologies in your field",
   "• Leadership and soft skills development",
   "• Building a strong portfolio of projects",
   "",
   repeatChar '=' 70]

/-- `LearningPathGenerator._generate_no_gaps_message`. -/
def _generate_no_gaps_message (result : AnalysisResult) : String :=
  String.intercalate "\n" (noGapsLines result)

/-- `LearningPathGenerator.generate_learning_path` (lines 29-67).  The
returned pair is (rendered plan text, result after the
`recommended_resources.extend(...)` mutations of step 5); on the
no-missing-skills path the result is returned untouched.  None of the
embedded operations can raise, so the `except` arm of the source is
unreachable in the embedding. -/
def generate_learning_path (db : String → Nat → List LearningResource)
    (now : String) (result : AnalysisResult) : String × AnalysisResult :=
  if result.missing_skills.isEmpty then
    (_generate_no_gaps_message result, result)
  else
    let priority_skills := _prioritize_skills result.missing_skills 8
    let skill_resources := _fetch_resources_for_skills db priority_skills
    let weekly_plan := _distribute_skills_across_weeks priority_skills skill_resources
    let learning_path := _format_learning_path now weekly_plan result
    let result' := { result with recommended_resources :=
      result.recommended_resources ++ skill_resources.flatMap (fun kv => kv.2) }
    (learning_path, result')

/-! ## Skill extractor (`src/services/skill_extractor.py`)

The regex-based dictionary detector, the spaCy noun-phrase detector and
the regex frequency counter are passed in as functions: the claims about
`extract_skills` concern its guard and the fact that the detectors are
not consulted on short input, for every possible detector behaviour.
The spaCy model being unavailable (`self.nlp = None`) is the `none` case
of `nlpModel`. -/

/-- The `SKILL_CATEGORIES` lookup table (`skill_extractor.py`, lines
97-153). -/
def SKILL_CATEGORIES : List (String × String) :=
  [("python", "Programming Language"), ("java", "Programming Language"),
   ("javascript", "Programming Language"), ("typescript", "Programming Language"),
   ("c++", "Programming Language"), ("c#", "Programming Language"),
   ("ruby", "Programming Language"), ("php", "Programming Language"),
   ("go", "Programming Language"), ("golang", "Programming Language"),
   ("rust", "Programming Language"),
   ("react", "Frontend Framework"), ("angular", "Frontend Framework"),
   ("vue", "Frontend Framework"),
   ("django", "Backend Framework"), ("flask", "Backend Framework"),
   ("spring", "Backend Framework"), ("spring boot", "Backend Framework"),
   ("express", "Backend Framework"), ("node.js", "Backend Framework"),
   ("sql", "Database"), ("mysql", "Database"), ("postgresql", "Database"),
   ("mongodb", "Database"), ("redis", "Database"), ("oracle", "Database"),
   ("aws", "Cloud Platform"), ("azure", "Cloud Platform"),
   ("gcp", "Cloud Platform"), ("google cloud", "Cloud Platform"),
   ("docker", "DevOps Tool"), ("kubernetes", "DevOps Tool"),
   ("jenkins", "DevOps Tool"), ("terraform", "DevOps Tool"),
   ("machine learning", "Machine Learning"), ("tensorflow", "Machine Learning"),
   ("pytorch", "Machine Learning"), ("keras", "Machine Learning"),
   ("leadership", "Soft Skill"), ("communication", "Soft Skill"),
   ("teamwork", "Soft Skill"), ("problem solving", "Soft Skill")]

/-- The `SOFT_SKILLS` set (`skill_extractor.py`, lines 156-159). -/
def SOFT_SKILLS : List String :=
  ["leadership", "communication", "teamwork", "problem solving",
   "analytical", "project management", "time management", "critical thinking"]

/-- Python set union of the two detectors' results, as an
insertion-ordered deduplicated list (set iteration order is irrelevant to
every claim). -/
def unionNames (a b : List String) : List String :=
  (a ++ b).dedup

/-- `SkillExtractor.extract_skills` (`skill_extractor.py`, lines 172-231),
parametric in the two detectors and the frequency counter.  The guard on
lines 183-185 returns `[]` for empty or too-short text before either
detector runs.  The final in-place `skills.sort(key=frequency,
reverse=True)` (Python's stable sort) is `mergeSort` with the
corresponding total preorder. -/
def extract_skills (dictDetect : String → List String)
    (nlpModel : Option (String → List String))
    (countFreq : String → String → Nat) (text : String) : List Skill :=
  if text = "" ∨ (pyStrip text).length < 10 then []
  else
    let dict_skills := dictDetect text
    let nlp_skills := match nlpModel with
      | some nlp => nlp text
      | none => []
    let all_skill_names := unionNames dict_skills nlp_skills
    let skills := all_skill_names.map (fun skill_name =>
      let skill_lower := pyLower skill_name
      let category := (SKILL_CATEGORIES.lookup skill_lower).getD "Technical"
      let is_technical := decide (skill_lower ∉ SOFT_SKILLS)
      mkSkill skill_name category is_technical (countFreq text skill_name))
    skills.mergeSort (fun a b => b.frequency ≤ a.frequency)

/-! ## Heap-based embedding of `_identify_skill_gaps` for the frame claim

To express that `_identify_skill_gaps` never mutates the `Skill` objects
owned by its inputs, the Python object store is made explicit: a heap of
`Skill` values addressed by `Nat` references.  `Resume.skills` and
`Job.required_skills` become lists of references; they are themselves
never assigned by the source, so the mutable state is exactly the heap.
Every write the source performs (the aggregate `increment_frequency`
calls and `add_missing_skill`'s `skill.frequency = 1`) targets a `Skill`
freshly allocated by the aggregation loop itself. -/

/-- A resume as a list of references into the skill heap. -/
structure ResumeR where
  skills : List Nat
deriving DecidableEq

/-- A job as a list of references into the skill heap. -/
structure JobR where
  required_skills : List Nat
deriving DecidableEq

/-- The heap state of the gap identification: the skill store plus the
two output reference lists being built inside the fresh
`AnalysisResult`. -/
structure GapStateH where
  heap : List Skill
  matching : List Nat
  missing : List Nat
deriving DecidableEq

/-- Heap version of the aggregation loop body (`skill_analyzer.py`, lines
112-126): a first occurrence allocates a fresh aggregate `Skill` at the
end of the heap, a repeat occurrence increments that fresh aggregate in
place. -/
def heapCollectStep (st : List Skill × List (String × Nat)) (ref : Nat) :
    List Skill × List (String × Nat) :=
  let heap := st.1
  let dict := st.2
  let sk := heap.getD ref default
  let key := pyLower sk.name
  match dict.lookup key with
  | none =>
    (heap ++ [mkSkill sk.name sk.category sk.is_technical 1],
     dict ++ [(key, heap.length)])
  | some r => (heap.set r ((heap.getD r default).increment_frequency), dict)

/-- Heap version of `AnalysisResult.add_matching_skill`: reads the heap,
never writes it. -/
def heapAddMatching (st : GapStateH) (ref : Nat) : GapStateH :=
  if st.matching.any (fun r =>
      (st.heap.getD r default).matches (st.heap.getD ref default)) then st
  else { st with matching := st.matching ++ [ref] }

/-- Heap version of `AnalysisResult.add_missing_skill`: increment the
first match in place, otherwise set the incoming skill's frequency to 1
in place and append its reference. -/
def heapAddMissing (st : GapStateH) (ref : Nat) : GapStateH :=
  match st.missing.find? (fun r =>
      (st.heap.getD r default).matches (st.heap.getD ref default)) with
  | some r =>
    { st with heap := st.heap.set r ((st.heap.getD r default).increment_frequency) }
  | none =>
    { st with
      heap := st.heap.set ref { (st.heap.getD ref default) with frequency := 1 }
      missing := st.missing ++ [ref] }

/-- Heap version of `_identify_skill_gaps` (`skill_analyzer.py`, lines
95-141), operating on the explicit skill heap. -/
def identify_gaps_heap (heap : List Skill) (resume : ResumeR)
    (jobs : List JobR) : GapStateH :=
  let st1 := jobs.foldl
    (fun st job => job.required_skills.foldl heapCollectStep st) (heap, [])
  let user_skill_names :=
    resume.skills.map (fun r => pyLower ((st1.1.getD r default).name))
  st1.2.foldl
    (fun st kv =>
      if kv.1 ∈ user_skill_names then heapAddMatching st kv.2
      else heapAddMissing st kv.2)
    ⟨st1.1, [], []⟩

/-! ## Concrete fixture: the worked example of the specification

Resume skills {Python, SQL, Git}; Job1 requires {Python, Docker}; Job2
requires {SQL, Docker}.  Skills are built through the `Skill(...)`
constructor (`mkSkill`), as in the repository. -/

/-- The example resume. -/
def exampleResume : Resume :=
  ⟨"test_resume.pdf", "",
   [mkSkill "Python" "Programming Language" true 0,
    mkSkill "SQL" "Database" true 0,
    mkSkill "Git" "Version Control" true 0]⟩

/-- The example job 1: requires Python and Docker. -/
def exampleJob1 : Job :=
  ⟨"Job1", "Tech Corp", "",
   [mkSkill "Python" "Programming Language" true 0,
    mkSkill "Docker" "DevOps Tool" true 0]⟩

/-- The example job 2: requires SQL and Docker. -/
def exampleJob2 : Job :=
  ⟨"Job2", "Enterprise Inc", "",
   [mkSkill "SQL" "Database" true 0,
    mkSkill "Docker" "DevOps Tool" true 0]⟩

/-! ## Claim theorems -/

/-- C1.  The claim says each missing skill's frequency equals the number
of distinct jobs requiring it (Docker: 2 in the worked example).  The
code disagrees: the aggregation loop of `_identify_skill_gaps` does
count Docker with frequency 2 (first conjunct), but
`AnalysisResult.add_missing_skill` then overwrites a newly appended
skill's frequency with 1 (`skill.frequency = 1`, `analysis_result.py`
line 93), so Docker ends in `missing_skills` with frequency 1 (second
conjunct), contradicting the claim, the aggregation loop's own comment
("how many jobs require this skill") and the demo output ("required by
N jobs"). -/
theorem missing_skill_frequency_is_reset_to_one :
    ((collectJobSkills [exampleJob1, exampleJob2]).map
      (fun kv => (kv.1, kv.2.frequency)) =
      [("python", 1), ("docker", 2), ("sql", 1)]) ∧
    ((_identify_skill_gaps exampleResume [exampleJob1, exampleJob2]
        emptyResult).missing_skills.map (fun s => (s.name, s.frequency)) =
      [("Docker", 1)]) := by decide

/-- C10.  Adding a skill to `matching_skills` whose lowercased name equals
that of an already-present matching skill is a complete no-op: the
`AnalysisResult` (in particular the list and every stored frequency) is
returned unchanged. -/
theorem add_matching_skill_duplicate_noop (r : AnalysisResult) (s e : Skill)
    (he : e ∈ r.matching_skills) (hn : pyLower e.name = pyLower s.name) :
    r.add_matching_skill s = r := by
  unfold AnalysisResult.add_matching_skill
  rw [if_pos]
  rw [List.any_eq_true]
  exact ⟨e, he, by simp [Skill.matches, hn]⟩

/-- Witness for C10 at a concrete duplicate add. -/
theorem add_matching_skill_duplicate_noop_witness :
    (mkSkill "Python" "Programming Language" true 1 ∈
      [mkSkill "Python" "Programming Language" true 1]) ∧
    pyLower (mkSkill "Python" "Programming Language" true 1).name =
      pyLower (mkSkill "PYTHON" "Programming Language" true 0).name ∧
    AnalysisResult.add_matching_skill
      ⟨[mkSkill "Python" "Programming Language" true 1], [], 0, [], "", none, 0⟩
      (mkSkill "PYTHON" "Programming Language" true 0) =
      ⟨[mkSkill "Python" "Programming Language" true 1], [], 0, [], "", none, 0⟩ :=
  ⟨by decide, by decide,
   add_matching_skill_duplicate_noop
     ⟨[mkSkill "Python" "Programming Language" true 1], [], 0, [], "", none, 0⟩
     (mkSkill "PYTHON" "Programming Language" true 0)
     (mkSkill "Python" "Programming Language" true 1)
     (by decide) (by decide)⟩

/-- C7.  For every input string shorter than 10 characters (the empty
string included), `extract_skills` returns the empty list without
invoking either the dictionary detector or the linguistic detector (the
result is `[]` for every possible detector and frequency counter). -/
theorem extract_skills_short_text (dictDetect : String → List String)
    (nlpModel : Option (String → List String))
    (countFreq : String → String → Nat) (text : String)
    (h : text.length < 10) :
    extract_skills dictDetect nlpModel countFreq text = [] := by
  unfold extract_skills
  rw [if_pos]
  right
  calc (pyStrip text).length
      = ((text.data.dropWhile Char.isWhitespace).reverse.dropWhile
          Char.isWhitespace).reverse.length := rfl
    _ = ((text.data.dropWhile Char.isWhitespace).reverse.dropWhile
          Char.isWhitespace).length := List.length_reverse _
    _ ≤ (text.data.dropWhile Char.isWhitespace).reverse.length :=
        List.Sublist.length_le (List.dropWhile_sublist _)
    _ = (text.data.dropWhile Char.isWhitespace).length := List.length_reverse _
    _ ≤ text.data.length := List.Sublist.length_le (List.dropWhile_sublist _)
    _ < 10 := h

/-- Witness for C7: a 5-character text with detectors that would have
produced skills had they been consulted. -/
theorem extract_skills_short_text_witness :
    ("short".length < 10) ∧
    extract_skills (fun _ => ["Python"]) (some (fun _ => ["Sql"]))
      (fun _ _ => 3) "short" = [] :=
  ⟨by decide,
   extract_skills_short_text (fun _ => ["Python"]) (some (fun _ => ["Sql"]))
     (fun _ _ => 3) "short" (by decide)⟩

/-! ## Lemmas about the shared add-skill loop -/

/-- Unfolding of the case-insensitive match test. -/
theorem Skill.matches_iff (e s : Skill) :
    e.matches s = true ↔ pyLower e.name = pyLower s.name := by
  simp [Skill.matches]

theorem addSkillToList_of_no_match (l : List Skill) (s : Skill)
    (h : ∀ e ∈ l, pyLower e.name ≠ pyLower s.name) :
    addSkillToList l s = l ++ [s] := by
  induction l with
  | nil => rfl
  | cons x rest ih =>
    have hx : x.matches s = false :=
      Bool.eq_false_iff.mpr (fun ht =>
        h x (List.mem_cons_self x rest) ((Skill.matches_iff x s).mp ht))
    simp only [addSkillToList, hx, Bool.false_eq_true, if_false, List.cons_append]
    rw [ih (fun e he => h e (List.mem_cons_of_mem _ he))]

theorem addSkillToList_length_of_match (l : List Skill) (s a : Skill)
    (ha : a ∈ l) (hm : pyLower a.name = pyLower s.name) :
    (addSkillToList l s).length = l.length := by
  induction l with
  | nil => cases ha
  | cons x rest ih =>
    by_cases hx : x.matches s = true
    · simp [addSkillToList, hx]
    · rcases List.mem_cons.mp ha with rfl | hrest
      · exact absurd ((Skill.matches_iff a s).mpr hm) hx
      · simp only [addSkillToList, hx, Bool.false_eq_true, if_false,
          List.length_cons, ih hrest]

theorem addSkillToList_eq_map (l : List Skill) (s a : Skill)
    (ha : a ∈ l) (hm : pyLower a.name = pyLower s.name)
    (hnd : (l.map (fun e => pyLower e.name)).Nodup) :
    addSkillToList l s =
      l.map (fun e => if pyLower e.name = pyLower a.name
        then e.increment_frequency else e) := by
  induction l with
  | nil => cases ha
  | cons x rest ih =>
    have hnd' := hnd
    rw [List.map_cons, List.nodup_cons] at hnd'
    by_cases hx : x.matches s = true
    · have hxa : pyLower x.name = pyLower a.name :=
        ((Skill.matches_iff x s).mp hx).trans hm.symm
      simp only [addSkillToList, hx, if_true, List.map_cons, hxa, if_pos rfl]
      congr 1
      have : ∀ e ∈ rest, (if pyLower e.name = pyLower a.name
          then e.increment_frequency else e) = e := by
        intro e he
        rw [if_neg]
        intro heq
        exact hnd'.1 (by
          rw [hxa]
          exact heq ▸ List.mem_map_of_mem (fun e => pyLower e.name) he)
      exact ((List.map_congr_left this).trans (List.map_id rest)).symm
    · rcases List.mem_cons.mp ha with rfl | hrest
      · exact absurd ((Skill.matches_iff a s).mpr hm) hx
      · have hxa : pyLower x.name ≠ pyLower a.name := by
          intro heq
          exact hx ((Skill.matches_iff x s).mpr (heq.trans hm))
        simp only [addSkillToList, hx, Bool.false_eq_true, if_false,
          List.map_cons, if_neg hxa]
        rw [ih hrest hnd'.2]

/-- C3.  For all skills `a`, `b` with equal lowercased names: adding `b`
to a `Resume` (via `add_skill`) or a `Job` (via `add_required_skill`)
whose collection already contains `a` leaves the number of entries
unchanged and (under the collection's no-duplicate-names invariant)
increments exactly `a`'s frequency by 1; adding a skill matching no
existing entry appends it as a new entry. -/
theorem add_skill_same_name_increments (r : Resume) (j : Job) (a b : Skill)
    (hname : pyLower a.name = pyLower b.name) :
    (a ∈ r.skills →
      ((r.add_skill b).skills.length = r.skills.length ∧
       ((r.skills.map (fun e => pyLower e.name)).Nodup →
         (r.add_skill b).skills = r.skills.map (fun e =>
           if pyLower e.name = pyLower a.name then e.increment_frequency else e)))) ∧
    (a ∈ j.required_skills →
      ((j.add_required_skill b).required_skills.length =
          j.required_skills.length ∧
       ((j.required_skills.map (fun e => pyLower e.name)).Nodup →
         (j.add_required_skill b).required_skills = j.required_skills.map (fun e =>
           if pyLower e.name = pyLower a.name then e.increment_frequency else e)))) ∧
    ((∀ e ∈ r.skills, pyLower e.name ≠ pyLower b.name) →
      (r.add_skill b).skills = r.skills ++ [b]) ∧
    ((∀ e ∈ j.required_skills, pyLower e.name ≠ pyLower b.name) →
      (j.add_required_skill b).required_skills = j.required_skills ++ [b]) :=
  ⟨fun ha => ⟨addSkillToList_length_of_match r.skills b a ha hname,
     fun hnd => addSkillToList_eq_map r.skills b a ha hname hnd⟩,
   fun ha => ⟨addSkillToList_length_of_match j.required_skills b a ha hname,
     fun hnd => addSkillToList_eq_map j.required_skills b a ha hname hnd⟩,
   fun h => addSkillToList_of_no_match r.skills b h,
   fun h => addSkillToList_of_no_match j.required_skills b h⟩

/-- Witness for C3: a duplicate add increments in place on both a Resume
and a Job collection. -/
theorem add_skill_same_name_increments_witness :
    ((Resume.add_skill ⟨"r.pdf", "", [mkSkill "Python" "Programming Language" true 2]⟩
        (mkSkill "PYTHON" "Programming Language" true 0)).skills =
      [mkSkill "Python" "Programming Language" true 3]) ∧
    ((Job.add_required_skill ⟨"t", "c", "", [mkSkill "SQL" "Database" true 1]⟩
        (mkSkill "sql" "Database" true 0)).required_skills =
      [mkSkill "SQL" "Database" true 2]) := by
  constructor
  · have h := ((add_skill_same_name_increments
      ⟨"r.pdf", "", [mkSkill "Python" "Programming Language" true 2]⟩
      ⟨"t", "c", "", []⟩
      (mkSkill "Python" "Programming Language" true 2)
      (mkSkill "PYTHON" "Programming Language" true 0)
      (by decide)).1 (by decide)).2 (by decide)
    rw [h]; decide
  · have h := ((add_skill_same_name_increments
      ⟨"r.pdf", "", []⟩
      ⟨"t", "c", "", [mkSkill "SQL" "Database" true 1]⟩
      (mkSkill "SQL" "Database" true 1)
      (mkSkill "sql" "Database" true 0)
      (by decide)).2.1 (by decide)).2 (by decide)
    rw [h]; decide

/-! ## Lemmas about the weekly distribution loop -/

/-- Each emitted week of `distributeGo` starting at week `w` carries the
right week number, the right 2-element slice, and is non-empty. -/
theorem distributeGo_get? (s : List Skill)
    (res : List (String × List LearningResource)) :
    ∀ (fuel w i : Nat) (wk : WeekData), 1 ≤ w →
      (distributeGo s res w fuel).get? i = some wk →
      wk.week_number = w + i ∧
      wk.skills = (s.drop ((w - 1 + i) * 2)).take 2 ∧ wk.skills ≠ [] := by
  intro fuel
  induction fuel with
  | zero => intro w i wk _ h; simp [distributeGo] at h
  | succ fuel ih =>
    intro w i wk hw h
    rw [distributeGo] at h
    by_cases hemp : ((s.drop ((w - 1) * 2)).take 2).isEmpty
    · rw [if_pos hemp] at h; simp at h
    · rw [if_neg hemp] at h
      cases i with
      | zero =>
        rw [List.get?_cons_zero, Option.some_inj] at h
        subst h
        refine ⟨by simp, by simp, ?_⟩
        simpa [List.isEmpty_iff] using hemp
      | succ i =>
        rw [List.get?_cons_succ] at h
        obtain ⟨h1, h2, h3⟩ := ih (w + 1) i wk (by omega) h
        refine ⟨by omega, ?_, h3⟩
        have : (w + 1 - 1 + i) = (w - 1 + (i + 1)) := by omega
        rw [← this, h2]

/-- Length of the emitted plan: one week per non-empty 2-slice, capped by
the remaining fuel. -/
theorem distributeGo_length (s : List Skill)
    (res : List (String × List LearningResource)) :
    ∀ (fuel w : Nat), 1 ≤ w →
      (distributeGo s res w fuel).length =
        min fuel ((s.length - (w - 1) * 2 + 1) / 2) := by
  intro fuel
  induction fuel with
  | zero => intro w _; simp [distributeGo]
  | succ fuel ih =>
    intro w hw
    rw [distributeGo]
    by_cases hemp : ((s.drop ((w - 1) * 2)).take 2).isEmpty
    · rw [if_pos hemp]
      have hlen : s.length ≤ (w - 1) * 2 := by
        rw [List.isEmpty_iff] at hemp
        rcases List.take_eq_nil_iff.mp hemp with h2 | hnil
        · omega
        · exact List.drop_eq_nil_iff.mp hnil
      simp
      omega
    · rw [if_neg hemp]
      have hlen : (w - 1) * 2 < s.length := by
        by_contra hle
        exact hemp (by
          rw [List.isEmpty_iff, List.drop_eq_nil_of_le (by omega), List.take_nil])
      rw [List.length_cons, ih (w + 1) (by omega)]
      have : (w + 1 - 1) = w := rfl
      rw [this]
      omega

/-- C5.  Only the first 8 missing skills receive a structured plan;
period `k` (1-based) gets `skills[2(k-1):2k]`; emission stops at the
first empty period, so an empty period is never emitted; 3 missing
skills yield exactly 2 periods and 8 or more yield exactly 4 periods of
2 skills each. -/
theorem learning_plan_distribution (skills : List Skill)
    (sres : List (String × List LearningResource)) (plan : List WeekData)
    (hplan : plan = _distribute_skills_across_weeks (_prioritize_skills skills 8) sres) :
    (∀ i wk, plan.get? i = some wk →
       wk.week_number = i + 1 ∧
       wk.skills = ((skills.take 8).drop (2 * i)).take 2 ∧ wk.skills ≠ []) ∧
    plan.length = min 4 ((min 8 skills.length + 1) / 2) ∧
    (skills.length = 3 → plan.length = 2) ∧
    (8 ≤ skills.length → plan.length = 4 ∧ ∀ wk ∈ plan, wk.skills.length = 2) := by
  subst hplan
  have content : ∀ i wk,
      (_distribute_skills_across_weeks (_prioritize_skills skills 8) sres).get? i
        = some wk →
      wk.week_number = i + 1 ∧
      wk.skills = ((skills.take 8).drop (2 * i)).take 2 ∧ wk.skills ≠ [] := by
    intro i wk h
    obtain ⟨h1, h2, h3⟩ :=
      distributeGo_get? (skills.take 8) sres 4 1 i wk (by omega) h
    refine ⟨by omega, ?_, h3⟩
    rw [h2]
    congr 2
    omega
  have hlen : (_distribute_skills_across_weeks (_prioritize_skills skills 8)
      sres).length = min 4 ((min 8 skills.length + 1) / 2) := by
    have h := distributeGo_length (skills.take 8) sres 4 1 (by omega)
    rw [List.length_take] at h
    have h0 : (1 - 1) * 2 = 0 := rfl
    rw [h0, Nat.sub_zero] at h
    exact h
  refine ⟨content, hlen, ?_, ?_⟩
  · intro h3
    rw [hlen, h3]
    omega
  · intro h8
    refine ⟨by rw [hlen]; omega, ?_⟩
    intro wk hmem
    obtain ⟨i, hi⟩ := List.mem_iff_get?.mp hmem
    have hilt : i < (_distribute_skills_across_weeks (_prioritize_skills skills 8)
        sres).length := by
      obtain ⟨hl, -⟩ := List.get?_eq_some.mp hi
      exact hl
    rw [hlen] at hilt
    obtain ⟨-, h2, -⟩ := content i wk hi
    rw [h2, List.length_take, List.length_drop, List.length_take]
    omega

/-- Witness for C5: three missing skills produce exactly two periods,
with slices [A, B] then [C]. -/
theorem learning_plan_distribution_witness :
    ([mkSkill "A" "T" true 5, mkSkill "B" "T" true 4,
        mkSkill "C" "T" true 3].length = 3) ∧
    (_distribute_skills_across_weeks
      (_prioritize_skills [mkSkill "A" "T" true 5, mkSkill "B" "T" true 4,
        mkSkill "C" "T" true 3] 8) []).length = 2 :=
  ⟨by decide,
   (learning_plan_distribution
     [mkSkill "A" "T" true 5, mkSkill "B" "T" true 4, mkSkill "C" "T" true 3]
     []
     (_distribute_skills_across_weeks
       (_prioritize_skills [mkSkill "A" "T" true 5, mkSkill "B" "T" true 4,
         mkSkill "C" "T" true 3] 8) [])
     rfl).2.2.1 (by decide)⟩

/-- C6.  When `missing_skills` is empty, `generate_learning_path` returns
the fixed congratulatory message (which contains the result's match
percentage, second conjunct) and leaves the result untouched, for every
possible resource catalog `db` — i.e. the external resource lookup is
never consulted on this path. -/
theorem learning_plan_no_gaps (db : String → Nat → List LearningResource)
    (now : String) (result : AnalysisResult)
    (h : result.missing_skills = []) :
    generate_learning_path db now result = (_generate_no_gaps_message result, result) ∧
    ("Overall Match: " ++ floatRepr result.match_percentage ++ "%")
      ∈ noGapsLines result := by
  constructor
  · unfold generate_learning_path
    rw [if_pos (by rw [h]; rfl)]
  · simp [noGapsLines]

/-- Witness for C6 with a catalog that would have returned a resource had
it been consulted. -/
theorem learning_plan_no_gaps_witness :
    ((⟨[], [], 75, [], "", none, 0⟩ : AnalysisResult).missing_skills = []) ∧
    (generate_learning_path
        (fun n _ => [⟨n, "Course", "url", Platform.OTHER, 1,
          DifficultyLevel.BEGINNER, none, none, "Free"⟩])
        "2026-10-12 00:00" ⟨[], [], 75, [], "", none, 0⟩ =
      (_generate_no_gaps_message ⟨[], [], 75, [], "", none, 0⟩,
       ⟨[], [], 75, [], "", none, 0⟩) ∧
     ("Overall Match: " ++ floatRepr (75 : ℚ) ++ "%")
       ∈ noGapsLines ⟨[], [], 75, [], "", none, 0⟩) :=
  ⟨rfl,
   learning_plan_no_gaps
     (fun n _ => [⟨n, "Course", "url", Platform.OTHER, 1,
       DifficultyLevel.BEGINNER, none, none, "Free"⟩])
     "2026-10-12 00:00" ⟨[], [], 75, [], "", none, 0⟩ rfl⟩

/-- C8.  The master vocabulary is the lexicographically sorted list of
the distinct lowercased skill names occurring in the resume or in any
job's required skills (sorted, duplicate-free, and with exactly that
membership), and it is invariant under any permutation of the job
list. -/
theorem master_skill_list_spec (resume : Resume) (jobs jobs' : List Job)
    (hperm : jobs'.Perm jobs) :
    List.Sorted (fun a b : String => a ≤ b)
      (_create_master_skill_list resume jobs) ∧
    (_create_master_skill_list resume jobs).Nodup ∧
    (∀ n, n ∈ _create_master_skill_list resume jobs ↔
       (n ∈ resume.skills.map (fun s => pyLower s.name) ∨
        ∃ j ∈ jobs, n ∈ j.required_skills.map (fun s => pyLower s.name))) ∧
    _create_master_skill_list resume jobs' =
      _create_master_skill_list resume jobs := by
  have mem_master : ∀ (js : List Job) (n : String),
      n ∈ _create_master_skill_list resume js ↔
        (n ∈ resume.skills.map (fun s => pyLower s.name) ∨
         ∃ j ∈ js, n ∈ j.required_skills.map (fun s => pyLower s.name)) := by
    intro js n
    unfold _create_master_skill_list
    rw [(List.perm_insertionSort _ _).mem_iff, List.mem_dedup, List.mem_append,
      List.mem_flatMap]
  have nodup_master : ∀ js : List Job,
      (_create_master_skill_list resume js).Nodup := by
    intro js
    unfold _create_master_skill_list
    exact (List.perm_insertionSort _ _).symm.nodup (List.nodup_dedup _)
  have sorted_master : ∀ js : List Job,
      List.Sorted (fun a b : String => a ≤ b)
        (_create_master_skill_list resume js) := by
    intro js
    unfold _create_master_skill_list
    exact List.sorted_insertionSort _ _
  refine ⟨sorted_master jobs, nodup_master jobs, mem_master jobs, ?_⟩
  refine List.eq_of_perm_of_sorted ?_ (sorted_master jobs') (sorted_master jobs)
  rw [List.perm_ext_iff_of_nodup (nodup_master jobs') (nodup_master jobs)]
  intro n
  rw [mem_master jobs', mem_master jobs]
  constructor
  · rintro (h | ⟨j, hj, hn⟩)
    · exact Or.inl h
    · exact Or.inr ⟨j, hperm.subset hj, hn⟩
  · rintro (h | ⟨j, hj, hn⟩)
    · exact Or.inl h
    · exact Or.inr ⟨j, hperm.symm.subset hj, hn⟩

/-- Witness for C8: swapping the two example jobs leaves the vocabulary
unchanged. -/
theorem master_skill_list_spec_witness :
    ([exampleJob2, exampleJob1].Perm [exampleJob1, exampleJob2]) ∧
    _create_master_skill_list exampleResume [exampleJob2, exampleJob1] =
      _create_master_skill_list exampleResume [exampleJob1, exampleJob2] :=
  ⟨List.Perm.swap exampleJob1 exampleJob2 [],
   (master_skill_list_spec exampleResume [exampleJob1, exampleJob2]
     [exampleJob2, exampleJob1]
     (List.Perm.swap exampleJob1 exampleJob2 [])).2.2.2⟩

/-! ## Lemmas about the overlap fallback score -/

/-- Rounding to two decimals keeps a percentage inside [0, 100]. -/
theorem pyRound2_bounds (q : ℚ) (h0 : 0 ≤ q) (h100 : q ≤ 100) :
    0 ≤ pyRound2 q ∧ pyRound2 q ≤ 100 := by
  unfold pyRound2
  constructor
  · apply div_nonneg _ (by norm_num)
    rw [round_eq]
    have : (0 : ℤ) ≤ ⌊q * 100 + 1 / 2⌋ := by
      rw [show (0 : ℤ) = ⌊(1 : ℚ) / 2⌋ by norm_num]
      apply Int.floor_le_floor
      nlinarith
    exact_mod_cast this
  · rw [div_le_iff₀ (by norm_num : (0:ℚ) < 100)]
    rw [round_eq]
    have : ⌊q * 100 + 1 / 2⌋ ≤ 10000 := by
      rw [show (10000 : ℤ) = ⌊(10000 : ℚ) + 1 / 2⌋ by norm_num]
      apply Int.floor_le_floor
      nlinarith
    calc (⌊q * 100 + 1 / 2⌋ : ℚ) ≤ (10000 : ℚ) := by exact_mod_cast this
      _ = 100 * 100 := by norm_num

/-- Unfolding of `_calculate_simple_overlap` on the non-degenerate
branch. -/
theorem overlap_unfold (resume : Resume) (jobs : List Job)
    (h1 : jobs ≠ [])
    (h2 : (jobs.flatMap (fun j => j.required_skills.map
      (fun s => pyLower s.name))) ≠ []) :
    _calculate_simple_overlap resume jobs =
      pyRound2
        ((((jobs.flatMap (fun j => j.required_skills.map
            (fun s => pyLower s.name))).dedup.filter
            (fun n => n ∈ (resume.skills.map (fun s => pyLower s.name)).dedup)).length : ℚ) /
          (((jobs.flatMap (fun j => j.required_skills.map
            (fun s => pyLower s.name))).dedup.length : ℚ)) * 100) := by
  unfold _calculate_simple_overlap
  rw [if_neg (by simpa [List.isEmpty_iff] using h1)]
  rw [if_neg (by simpa [List.isEmpty_iff, List.dedup_eq_nil] using h2)]

/-- The deduplicated filtered count computed by the source equals the
cardinality of the corresponding finite-set intersection. -/
theorem filter_dedup_length_eq_inter_card (flat resNames : List String) :
    (flat.dedup.filter (fun n => n ∈ resNames.dedup)).length =
      (flat.toFinset ∩ resNames.toFinset).card := by
  have hcongr : flat.dedup.filter (fun n => n ∈ resNames.dedup) =
      flat.dedup.filter (fun n => n ∈ resNames.toFinset) := by
    apply List.filter_congr
    intro n _
    simp [List.mem_dedup, List.mem_toFinset]
  rw [hcongr]
  have hnd : (flat.dedup.filter (fun n => n ∈ resNames.toFinset)).Nodup :=
    (List.nodup_dedup flat).filter _
  rw [← List.Nodup.dedup hnd, ← List.card_toFinset, List.toFinset_filter]
  rw [show flat.dedup.toFinset = flat.toFinset from by
    ext n
    simp [List.mem_toFinset, List.mem_dedup]]
  have hfin : Finset.filter (fun x => decide (x ∈ resNames.toFinset) = true)
      flat.toFinset = flat.toFinset ∩ resNames.toFinset := by
    ext n
    simp [Finset.mem_filter, Finset.mem_inter]
  rw [hfin]

/-- C4.  The simple-overlap fallback score always lies in [0, 100]; for a
non-empty job list with at least one required skill it equals
(number of distinct lowercased job-required names also on the resume) /
(number of distinct lowercased job-required names) × 100 rounded to two
decimals; and it is 0 whenever no job-required name overlaps the resume.
Determinism is inherent: the embedding is a pure function of
(resume, jobs). -/
theorem simple_overlap_spec (resume : Resume) (jobs : List Job) :
    (0 ≤ _calculate_simple_overlap resume jobs ∧
     _calculate_simple_overlap resume jobs ≤ 100) ∧
    (jobs ≠ [] →
     (jobs.flatMap (fun j => j.required_skills.map (fun s => pyLower s.name))) ≠ [] →
     _calculate_simple_overlap resume jobs =
       pyRound2
         ((((jobs.flatMap (fun j => j.required_skills.map
               (fun s => pyLower s.name))).toFinset ∩
             (resume.skills.map (fun s => pyLower s.name)).toFinset).card : ℚ) /
           ((jobs.flatMap (fun j => j.required_skills.map
               (fun s => pyLower s.name))).toFinset.card : ℚ) * 100)) ∧
    ((∀ n ∈ jobs.flatMap (fun j => j.required_skills.map (fun s => pyLower s.name)),
        n ∉ resume.skills.map (fun s => pyLower s.name)) →
      _calculate_simple_overlap resume jobs = 0) := by
  by_cases h1 : jobs = []
  · subst h1
    have hz : _calculate_simple_overlap resume [] = 0 := by
      simp [_calculate_simple_overlap]
    exact ⟨⟨by rw [hz], by rw [hz]; norm_num⟩, fun h _ => absurd rfl h, fun _ => hz⟩
  by_cases h2 : (jobs.flatMap (fun j => j.required_skills.map
      (fun s => pyLower s.name))) = []
  · have hz : _calculate_simple_overlap resume jobs = 0 := by
      unfold _calculate_simple_overlap
      rw [if_neg (by simpa [List.isEmpty_iff] using h1)]
      rw [if_pos (by simpa [List.isEmpty_iff, List.dedup_eq_nil] using h2)]
    exact ⟨⟨by rw [hz], by rw [hz]; norm_num⟩, fun _ h => absurd h2 h, fun _ => hz⟩
  have hunfold := overlap_unfold resume jobs h1 h2
  have ht0 : 0 < (jobs.flatMap (fun j => j.required_skills.map
      (fun s => pyLower s.name))).dedup.length := by
    rw [List.length_pos]
    simpa [List.dedup_eq_nil] using h2
  have hm : ((jobs.flatMap (fun j => j.required_skills.map
      (fun s => pyLower s.name))).dedup.filter
      (fun n => n ∈ (resume.skills.map (fun s => pyLower s.name)).dedup)).length ≤
      (jobs.flatMap (fun j => j.required_skills.map
      (fun s => pyLower s.name))).dedup.length := List.length_filter_le _ _
  have hq0 : 0 ≤ (((jobs.flatMap (fun j => j.required_skills.map
      (fun s => pyLower s.name))).dedup.filter
      (fun n => n ∈ (resume.skills.map (fun s => pyLower s.name)).dedup)).length : ℚ) /
      ((jobs.flatMap (fun j => j.required_skills.map
      (fun s => pyLower s.name))).dedup.length : ℚ) * 100 := by positivity
  have hq100 : (((jobs.flatMap (fun j => j.required_skills.map
      (fun s => pyLower s.name))).dedup.filter
      (fun n => n ∈ (resume.skills.map (fun s => pyLower s.name)).dedup)).length : ℚ) /
      ((jobs.flatMap (fun j => j.required_skills.map
      (fun s => pyLower s.name))).dedup.length : ℚ) * 100 ≤ 100 := by
    have hmq : (((jobs.flatMap (fun j => j.required_skills.map
        (fun s => pyLower s.name))).dedup.filter
        (fun n => n ∈ (resume.skills.map (fun s => pyLower s.name)).dedup)).length : ℚ) ≤
        ((jobs.flatMap (fun j => j.required_skills.map
        (fun s => pyLower s.name))).dedup.length : ℚ) := by exact_mod_cast hm
    have htq : (0:ℚ) < ((jobs.flatMap (fun j => j.required_skills.map
        (fun s => pyLower s.name))).dedup.length : ℚ) := by exact_mod_cast ht0
    rw [div_mul_eq_mul_div, div_le_iff₀ htq]
    nlinarith
  refine ⟨?_, fun _ _ => ?_, fun hdisj => ?_⟩
  · rw [hunfold]
    exact pyRound2_bounds _ hq0 hq100
  · rw [hunfold]
    congr 1
  · have hfil : ((jobs.flatMap (fun j => j.required_skills.map
        (fun s => pyLower s.name))).dedup.filter
        (fun n => n ∈ (resume.skills.map (fun s => pyLower s.name)).dedup)) = [] := by
      rw [List.filter_eq_nil_iff]
      intro n hn
      simp only [List.mem_dedup] at hn ⊢
      simpa [List.mem_dedup] using hdisj n hn
    rw [hunfold, hfil]
    unfold pyRound2
    norm_num

/-- Witness for C4 at the worked example (value 2/3·100 rounded =
66.67). -/
theorem simple_overlap_spec_witness :
    _calculate_simple_overlap exampleResume [exampleJob1, exampleJob2] =
      pyRound2
        (((([exampleJob1, exampleJob2].flatMap (fun j => j.required_skills.map
              (fun s => pyLower s.name))).toFinset ∩
            (exampleResume.skills.map (fun s => pyLower s.name)).toFinset).card : ℚ) /
          (([exampleJob1, exampleJob2].flatMap (fun j => j.required_skills.map
              (fun s => pyLower s.name))).toFinset.card : ℚ) * 100) :=
  (simple_overlap_spec exampleResume [exampleJob1, exampleJob2]).2.1
    (by decide) (by decide)

/-! ## Lemmas about the gap-identification pipeline -/

/-- A nested fold over a list of lists equals one fold over the
flattened list. -/
theorem foldl_flatMap {α β γ : Type} (f : γ → β → γ) (g : α → List β)
    (l : List α) (init : γ) :
    l.foldl (fun acc a => (g a).foldl f acc) init = (l.flatMap g).foldl f init := by
  induction l generalizing init with
  | nil => rfl
  | cons a l ih =>
    simp only [List.flatMap_cons, List.foldl_append, List.foldl_cons]
    exact ih _

/-- The nested aggregation loop equals a single fold over the flattened
skill list. -/
theorem collectJobSkills_eq_flat (jobs : List Job) :
    collectJobSkills jobs =
      (jobs.flatMap (fun j => j.required_skills)).foldl collectStep [] := by
  unfold collectJobSkills
  exact foldl_flatMap collectStep (fun j => j.required_skills) jobs []

/-- Incrementing a stored aggregate does not change the key list. -/
theorem incrementAt_map_fst (dict : List (String × Skill)) (k : String) :
    (incrementAt dict k).map Prod.fst = dict.map Prod.fst := by
  induction dict with
  | nil => rfl
  | cons kv rest ih =>
    rw [show kv = (kv.1, kv.2) from rfl]
    simp only [incrementAt]
    split
    · simp
    · simp [ih]

/-- Incrementing a stored aggregate preserves the key/name coherence. -/
theorem incrementAt_names (dict : List (String × Skill)) (k : String)
    (hval : ∀ kv ∈ dict, pyLower kv.2.name = kv.1) :
    ∀ kv ∈ incrementAt dict k, pyLower kv.2.name = kv.1 := by
  induction dict with
  | nil => intro kv h; cases h
  | cons kv0 rest ih =>
    rw [show kv0 = (kv0.1, kv0.2) from rfl]
    simp only [incrementAt]
    split
    · intro kv hkv
      rcases List.mem_cons.mp hkv with rfl | hrest
      · exact hval (kv0.1, kv0.2) (by simp)
      · exact hval kv (List.mem_cons_of_mem _ hrest)
    · intro kv hkv
      rcases List.mem_cons.mp hkv with rfl | hrest
      · exact hval (kv0.1, kv0.2) (by simp)
      · exact ih (fun kv h => hval kv (List.mem_cons_of_mem _ h)) kv hrest

/-- Invariants of the aggregation dictionary: keys are pairwise distinct,
each stored skill lowercases to its key (under the `__post_init__`
normalisation invariant of the incoming skills), and the key set is the
incoming lowercased-name set plus the keys already present. -/
theorem collect_invariant (skills : List Skill) :
    ∀ (dict : List (String × Skill)),
    (∀ s ∈ skills, normName s.name = s.name) →
    (dict.map Prod.fst).Nodup →
    (∀ kv ∈ dict, pyLower kv.2.name = kv.1) →
    ((skills.foldl collectStep dict).map Prod.fst).Nodup ∧
    (∀ kv ∈ skills.foldl collectStep dict, pyLower kv.2.name = kv.1) ∧
    (∀ k, k ∈ (skills.foldl collectStep dict).map Prod.fst ↔
       (k ∈ dict.map Prod.fst ∨ k ∈ skills.map (fun s => pyLower s.name))) := by
  induction skills with
  | nil =>
    intro dict _ hnd hval
    exact ⟨hnd, hval, by simp⟩
  | cons s rest ih =>
    intro dict hns hnd hval
    rw [List.foldl_cons]
    have hs : normName s.name = s.name := hns s (by simp)
    have hrest : ∀ x ∈ rest, normName x.name = x.name :=
      fun x hx => hns x (List.mem_cons_of_mem _ hx)
    by_cases hk : pyLower s.name ∈ dict.map Prod.fst
    · have hstep : collectStep dict s = incrementAt dict (pyLower s.name) := by
        unfold collectStep
        rw [if_pos hk]
      rw [hstep]
      have hnd' : ((incrementAt dict (pyLower s.name)).map Prod.fst).Nodup := by
        rw [incrementAt_map_fst]
        exact hnd
      obtain ⟨h1, h2, h3⟩ := ih _ hrest hnd' (incrementAt_names dict _ hval)
      refine ⟨h1, h2, fun k => ?_⟩
      rw [h3, incrementAt_map_fst]
      constructor
      · rintro (h | h)
        · exact Or.inl h
        · exact Or.inr (by simpa using Or.inr (by simpa using h))
      · rintro (h | h)
        · exact Or.inl h
        · rcases (by simpa using h : k = pyLower s.name ∨
            k ∈ rest.map (fun s => pyLower s.name)) with rfl | h'
          · exact Or.inl hk
          · exact Or.inr h'
    · have hstep : collectStep dict s =
          dict ++ [(pyLower s.name, mkSkill s.name s.category s.is_technical 1)] := by
        unfold collectStep
        rw [if_neg hk]
      rw [hstep]
      have hnd' : (((dict ++ [(pyLower s.name,
          mkSkill s.name s.category s.is_technical 1)]).map Prod.fst)).Nodup := by
        rw [List.map_append]
        simp only [List.map_cons, List.map_nil]
        rw [List.nodup_append]
        exact ⟨hnd, List.nodup_singleton _, by simpa using hk⟩
      have hval' : ∀ kv ∈ dict ++ [(pyLower s.name,
          mkSkill s.name s.category s.is_technical 1)],
          pyLower kv.2.name = kv.1 := by
        intro kv hkv
        rcases List.mem_append.mp hkv with h | h
        · exact hval kv h
        · rcases (by simpa using h : kv = (pyLower s.name,
            mkSkill s.name s.category s.is_technical 1)) with rfl
          show pyLower (mkSkill s.name s.category s.is_technical 1).name = _
          rw [show (mkSkill s.name s.category s.is_technical 1).name =
            normName s.name from rfl, hs]
      obtain ⟨h1, h2, h3⟩ := ih _ hrest hnd' hval'
      refine ⟨h1, h2, fun k => ?_⟩
      rw [h3, List.map_append]
      constructor
      · rintro (h | h)
        · rcases List.mem_append.mp h with h' | h'
          · exact Or.inl h'
          · refine Or.inr ?_
            rcases (by simpa using h' : k = pyLower s.name) with rfl
            simp
        · exact Or.inr (by simpa using Or.inr (by simpa using h))
      · rintro (h | h)
        · exact Or.inl (List.mem_append.mpr (Or.inl h))
        · rcases (by simpa using h : k = pyLower s.name ∨
            k ∈ rest.map (fun s => pyLower s.name)) with rfl | h'
          · exact Or.inl (List.mem_append.mpr (Or.inr (by simp)))
          · exact Or.inr h'

/-- `add_matching_skill` appends when no stored name matches. -/
theorem add_matching_of_no_match (r : AnalysisResult) (s : Skill)
    (h : ∀ e ∈ r.matching_skills, pyLower e.name ≠ pyLower s.name) :
    r.add_matching_skill s = { r with matching_skills := r.matching_skills ++ [s] } := by
  unfold AnalysisResult.add_matching_skill
  rw [if_neg]
  rw [List.any_eq_true]
  rintro ⟨e, he, hm⟩
  exact h e he ((Skill.matches_iff e s).mp hm)

/-- `add_missing_skill`'s loop appends (with the frequency reset to 1)
when no stored name matches. -/
theorem addMissingToList_of_no_match (l : List Skill) (s : Skill)
    (h : ∀ e ∈ l, pyLower e.name ≠ pyLower s.name) :
    addMissingToList l s = l ++ [{ s with frequency := 1 }] := by
  induction l with
  | nil => rfl
  | cons x rest ih =>
    have hx : x.matches s = false :=
      Bool.eq_false_iff.mpr (fun ht =>
        h x (List.mem_cons_self x rest) ((Skill.matches_iff x s).mp ht))
    simp only [addMissingToList, hx, Bool.false_eq_true, if_false, List.cons_append]
    rw [ih (fun e he => h e (List.mem_cons_of_mem _ he))]

/-- The categorisation fold routes each aggregate by key membership in
the user's lowercased names: matching aggregates are appended as-is, and
missing aggregates are appended with their frequency reset to 1. -/
theorem gapsFold_spec (user : List String) :
    ∀ (dict : List (String × Skill)) (result : AnalysisResult),
    (dict.map Prod.fst).Nodup →
    (∀ kv ∈ dict, pyLower kv.2.name = kv.1) →
    (∀ kv ∈ dict,
      kv.1 ∉ result.matching_skills.map (fun s => pyLower s.name) ∧
      kv.1 ∉ result.missing_skills.map (fun s => pyLower s.name)) →
    (dict.foldl (gapStep user) result).matching_skills =
      result.matching_skills ++
        (dict.filter (fun kv => kv.1 ∈ user)).map Prod.snd ∧
    (dict.foldl (gapStep user) result).missing_skills =
      result.missing_skills ++
        (dict.filter (fun kv => kv.1 ∉ user)).map
          (fun kv => { kv.2 with frequency := 1 }) := by
  intro dict
  induction dict with
  | nil => intro result _ _ _; simp
  | cons kv rest ih =>
    intro result hnd hval hdisj
    rw [List.foldl_cons]
    have hndrest : (rest.map Prod.fst).Nodup := by
      rw [List.map_cons, List.nodup_cons] at hnd
      exact hnd.2
    have hheadnot : kv.1 ∉ rest.map Prod.fst := by
      rw [List.map_cons, List.nodup_cons] at hnd
      exact hnd.1
    have hvalhead : pyLower kv.2.name = kv.1 := hval kv (by simp)
    have hvalrest : ∀ kv' ∈ rest, pyLower kv'.2.name = kv'.1 :=
      fun kv' h => hval kv' (List.mem_cons_of_mem _ h)
    have hdhead := hdisj kv (by simp)
    have hrestkey : ∀ kv' ∈ rest, kv'.1 ≠ pyLower kv.2.name := by
      intro kv' hkv' heq
      exact hheadnot (by
        rw [← hvalhead, ← heq]
        exact List.mem_map_of_mem Prod.fst hkv')
    by_cases hu : kv.1 ∈ user
    · have hstep : gapStep user result kv = { result with
          matching_skills := result.matching_skills ++ [kv.2] } := by
        unfold gapStep
        rw [if_pos hu]
        apply add_matching_of_no_match
        intro e he heq
        refine hdhead.1 ?_
        rw [← hvalhead, ← heq]
        exact List.mem_map_of_mem _ he
      rw [hstep]
      obtain ⟨hM, hX⟩ := ih
        { result with matching_skills := result.matching_skills ++ [kv.2] }
        hndrest hvalrest (by
          intro kv' hkv'
          refine ⟨?_, (hdisj kv' (List.mem_cons_of_mem _ hkv')).2⟩
          show kv'.1 ∉ (result.matching_skills ++ [kv.2]).map
            (fun (s : Skill) => pyLower s.name)
          rw [List.map_append, List.mem_append]
          rintro (h | h)
          · exact (hdisj kv' (List.mem_cons_of_mem _ hkv')).1 h
          · exact hrestkey kv' hkv' (by simpa using h))
      constructor
      · rw [hM]
        show (result.matching_skills ++ [kv.2]) ++ _ = _
        rw [List.filter_cons_of_pos (by simpa using hu), List.map_cons,
          List.append_assoc]
        rfl
      · rw [hX]
        rw [List.filter_cons_of_neg (by simpa using hu)]
    · have hstep : gapStep user result kv = { result with
          missing_skills := result.missing_skills ++
            [{ kv.2 with frequency := 1 }] } := by
        unfold gapStep
        rw [if_neg hu]
        unfold AnalysisResult.add_missing_skill
        rw [addMissingToList_of_no_match]
        intro e he heq
        refine hdhead.2 ?_
        rw [← hvalhead, ← heq]
        exact List.mem_map_of_mem _ he
      rw [hstep]
      obtain ⟨hM, hX⟩ := ih
        { result with missing_skills := result.missing_skills ++
            [{ kv.2 with frequency := 1 }] }
        hndrest hvalrest (by
          intro kv' hkv'
          refine ⟨(hdisj kv' (List.mem_cons_of_mem _ hkv')).1, ?_⟩
          show kv'.1 ∉ (result.missing_skills ++
            [{ kv.2 with frequency := 1 }]).map (fun (s : Skill) => pyLower s.name)
          rw [List.map_append, List.mem_append]
          rintro (h | h)
          · exact (hdisj kv' (List.mem_cons_of_mem _ hkv')).2 h
          · exact hrestkey kv' hkv' (by simpa using h))
      constructor
      · rw [hM]
        rw [List.filter_cons_of_neg (by simpa using hu)]
      · rw [hX]
        show (result.missing_skills ++ [{ kv.2 with frequency := 1 }]) ++ _ = _
        rw [List.filter_cons_of_pos (by simpa using hu), List.map_cons,
          List.append_assoc]
        rfl

/-- Mapping names over the flattened skills commutes with flattening. -/
theorem flatMap_map_names (jobs : List Job) :
    (jobs.flatMap (fun j => j.required_skills)).map (fun s => pyLower s.name) =
      jobs.flatMap (fun j => j.required_skills.map (fun s => pyLower s.name)) := by
  induction jobs with
  | nil => rfl
  | cons j rest ih => simp [List.flatMap_cons, ih]

/-- C2.  The two output lists of the gap identifier partition the
distinct lowercased job-required names: the lists are disjoint by name,
their union is exactly the set of lowercased names required by some
job, and neither list repeats a name.  The hypothesis is the
`Skill.__post_init__` invariant, which every Python-constructed Skill
satisfies. -/
theorem skill_gaps_partition (resume : Resume) (jobs : List Job)
    (result : AnalysisResult)
    (hres : result = _identify_skill_gaps resume jobs emptyResult)
    (hnorm : ∀ j ∈ jobs, ∀ s ∈ j.required_skills, normName s.name = s.name) :
    (∀ n, n ∈ result.matching_skills.map (fun s => pyLower s.name) →
       n ∉ result.missing_skills.map (fun s => pyLower s.name)) ∧
    (∀ n, (n ∈ result.matching_skills.map (fun s => pyLower s.name) ∨
           n ∈ result.missing_skills.map (fun s => pyLower s.name)) ↔
       n ∈ jobs.flatMap (fun j => j.required_skills.map (fun s => pyLower s.name))) ∧
    (result.matching_skills.map (fun s => pyLower s.name)).Nodup ∧
    (result.missing_skills.map (fun s => pyLower s.name)).Nodup := by
  subst hres
  have hns : ∀ s ∈ jobs.flatMap (fun j => j.required_skills),
      normName s.name = s.name := by
    intro s hs
    obtain ⟨j, hj, hsj⟩ := List.mem_flatMap.mp hs
    exact hnorm j hj s hsj
  obtain ⟨hnd, hval, hkeys⟩ :=
    collect_invariant (jobs.flatMap (fun j => j.required_skills)) [] hns
      (by simp) (by simp)
  rw [← collectJobSkills_eq_flat] at hnd hval hkeys
  obtain ⟨hM, hX⟩ := gapsFold_spec
    (resume.skills.map (fun s => pyLower s.name)) (collectJobSkills jobs)
    emptyResult hnd hval
    (by intro kv _; exact ⟨by simp [emptyResult], by simp [emptyResult]⟩)
  rw [show emptyResult.matching_skills = [] from rfl, List.nil_append] at hM
  rw [show emptyResult.missing_skills = [] from rfl, List.nil_append] at hX
  have hgaps : _identify_skill_gaps resume jobs emptyResult =
      (collectJobSkills jobs).foldl
        (gapStep (resume.skills.map (fun s => pyLower s.name))) emptyResult := rfl
  have hMn : (((collectJobSkills jobs).filter
        (fun kv => kv.1 ∈ resume.skills.map (fun s => pyLower s.name))).map
        Prod.snd).map (fun s => pyLower s.name) =
      ((collectJobSkills jobs).filter
        (fun kv => kv.1 ∈ resume.skills.map (fun s => pyLower s.name))).map
        Prod.fst := by
    rw [List.map_map]
    apply List.map_congr_left
    intro kv hkv
    exact hval kv (List.mem_of_mem_filter hkv)
  have hXn : (((collectJobSkills jobs).filter
        (fun kv => kv.1 ∉ resume.skills.map (fun s => pyLower s.name))).map
        (fun kv => { kv.2 with frequency := 1 })).map
        (fun s => pyLower s.name) =
      ((collectJobSkills jobs).filter
        (fun kv => kv.1 ∉ resume.skills.map (fun s => pyLower s.name))).map
        Prod.fst := by
    rw [List.map_map]
    apply List.map_congr_left
    intro kv hkv
    exact hval kv (List.mem_of_mem_filter hkv)
  rw [hgaps, hM, hX, hMn, hXn]
  refine ⟨?_, ?_, ?_, ?_⟩
  · intro n h1 h2
    obtain ⟨kv, hkv, rfl⟩ := List.mem_map.mp h1
    obtain ⟨kv2, hkv2, heq⟩ := List.mem_map.mp h2
    have hp := (List.mem_filter.mp hkv).2
    have hp2 := (List.mem_filter.mp hkv2).2
    simp only [decide_eq_true_eq] at hp hp2
    exact hp2 (heq ▸ hp)
  · intro n
    have hflat := flatMap_map_names jobs
    constructor
    · rintro (h | h)
      · obtain ⟨kv, hkv, rfl⟩ := List.mem_map.mp h
        have := (hkeys kv.1).mp
          (List.mem_map_of_mem Prod.fst (List.mem_of_mem_filter hkv))
        rw [← hflat]
        simpa using this
      · obtain ⟨kv, hkv, rfl⟩ := List.mem_map.mp h
        have := (hkeys kv.1).mp
          (List.mem_map_of_mem Prod.fst (List.mem_of_mem_filter hkv))
        rw [← hflat]
        simpa using this
    · intro h
      have hmem : n ∈ (collectJobSkills jobs).map Prod.fst := by
        rw [hkeys n]
        rw [← hflat] at h
        simpa using h
      obtain ⟨kv, hkv, rfl⟩ := List.mem_map.mp hmem
      by_cases hu : kv.1 ∈ resume.skills.map (fun s => pyLower s.name)
      · exact Or.inl (List.mem_map_of_mem Prod.fst
          (List.mem_filter.mpr ⟨hkv, by simpa using hu⟩))
      · exact Or.inr (List.mem_map_of_mem Prod.fst
          (List.mem_filter.mpr ⟨hkv, by simpa using hu⟩))
  · exact ((List.filter_sublist _).map Prod.fst).nodup hnd
  · exact ((List.filter_sublist _).map Prod.fst).nodup hnd

/-- Witness for C2 at the worked example. -/
theorem skill_gaps_partition_witness :
    (∀ n, n ∈ (_identify_skill_gaps exampleResume [exampleJob1, exampleJob2]
          emptyResult).matching_skills.map (fun s => pyLower s.name) →
       n ∉ (_identify_skill_gaps exampleResume [exampleJob1, exampleJob2]
          emptyResult).missing_skills.map (fun s => pyLower s.name)) ∧
    (∀ n, (n ∈ (_identify_skill_gaps exampleResume [exampleJob1, exampleJob2]
          emptyResult).matching_skills.map (fun s => pyLower s.name) ∨
           n ∈ (_identify_skill_gaps exampleResume [exampleJob1, exampleJob2]
          emptyResult).missing_skills.map (fun s => pyLower s.name)) ↔
       n ∈ [exampleJob1, exampleJob2].flatMap
          (fun j => j.required_skills.map (fun s => pyLower s.name))) ∧
    ((_identify_skill_gaps exampleResume [exampleJob1, exampleJob2]
        emptyResult).matching_skills.map (fun s => pyLower s.name)).Nodup ∧
    ((_identify_skill_gaps exampleResume [exampleJob1, exampleJob2]
        emptyResult).missing_skills.map (fun s => pyLower s.name)).Nodup :=
  skill_gaps_partition exampleResume [exampleJob1, exampleJob2]
    (_identify_skill_gaps exampleResume [exampleJob1, exampleJob2] emptyResult)
    rfl (by decide)

/-! ## Lemmas for the heap-based frame property -/

/-- Writing at or past index `n` leaves the first `n` elements intact. -/
theorem take_set_of_le {α : Type} (l : List α) (i n : Nat) (a : α)
    (h : n ≤ i) : (l.set i a).take n = l.take n := by
  induction l generalizing i n with
  | nil => simp
  | cons x xs ih =>
    cases n with
    | zero => simp
    | succ n =>
      cases i with
      | zero => omega
      | succ i =>
        simp only [List.set_cons_succ, List.take_succ_cons]
        rw [ih i n (by omega)]

/-- A successful association-list lookup is a membership. -/
theorem lookup_mem {β : Type} (l : List (String × β)) (k : String) (v : β)
    (h : l.lookup k = some v) : (k, v) ∈ l := by
  induction l with
  | nil => cases h
  | cons kv rest ih =>
    rw [show kv = (kv.1, kv.2) from rfl, List.lookup_cons] at h
    by_cases hk : k = kv.1
    · have hb : (k == kv.1) = true := by simpa using hk
      simp only [hb] at h
      rw [Option.some_inj] at h
      subst h
      simp [hk]
    · have hb : (k == kv.1) = false := by simpa using hk
      simp only [hb] at h
      exact List.mem_cons_of_mem _ (ih h)

/-- The aggregation loop only allocates fresh skills and only writes to
them: the first `N` heap slots stay intact and every dictionary
reference points past them. -/
theorem heapCollect_inv (N : Nat) (heap0 : List Skill) (refs : List Nat) :
    ∀ st : List Skill × List (String × Nat),
    st.1.take N = heap0.take N → N ≤ st.1.length →
    (∀ kv ∈ st.2, N ≤ kv.2 ∧ kv.2 < st.1.length) →
    (refs.foldl heapCollectStep st).1.take N = heap0.take N ∧
    N ≤ (refs.foldl heapCollectStep st).1.length ∧
    (∀ kv ∈ (refs.foldl heapCollectStep st).2,
      N ≤ kv.2 ∧ kv.2 < (refs.foldl heapCollectStep st).1.length) := by
  induction refs with
  | nil => intro st h1 h2 h3; exact ⟨h1, h2, h3⟩
  | cons ref rest ih =>
    intro st h1 h2 h3
    rw [List.foldl_cons]
    cases hl : st.2.lookup (pyLower (st.1.getD ref default).name) with
    | none =>
      have hstep : heapCollectStep st ref =
          (st.1 ++ [mkSkill (st.1.getD ref default).name
              (st.1.getD ref default).category
              (st.1.getD ref default).is_technical 1],
           st.2 ++ [(pyLower (st.1.getD ref default).name, st.1.length)]) := by
        simp only [heapCollectStep, hl]
      rw [hstep]
      apply ih
      · show (st.1 ++ _).take N = heap0.take N
        rw [List.take_append_of_le_length h2]
        exact h1
      · show N ≤ (st.1 ++ _).length
        rw [List.length_append]
        omega
      · intro kv hkv
        rcases List.mem_append.mp hkv with h | h
        · obtain ⟨ha, hb⟩ := h3 kv h
          exact ⟨ha, by rw [List.length_append]; omega⟩
        · rcases (by simpa using h :
            kv = (pyLower (st.1.getD ref default).name, st.1.length)) with rfl
          exact ⟨h2, by rw [List.length_append]; simp⟩
    | some r =>
      have hr := h3 _ (lookup_mem st.2 _ r hl)
      have hstep : heapCollectStep st ref =
          (st.1.set r ((st.1.getD r default).increment_frequency), st.2) := by
        simp only [heapCollectStep, hl]
      rw [hstep]
      apply ih
      · show (st.1.set r _).take N = heap0.take N
        rw [take_set_of_le _ _ _ _ hr.1]
        exact h1
      · show N ≤ (st.1.set r _).length
        rw [List.length_set]
        exact h2
      · intro kv hkv
        obtain ⟨ha, hb⟩ := h3 kv hkv
        exact ⟨ha, by rw [List.length_set]; exact hb⟩

/-- `add_matching_skill` never writes the heap. -/
theorem heapAddMatching_heap (st : GapStateH) (ref : Nat) :
    (heapAddMatching st ref).heap = st.heap := by
  unfold heapAddMatching
  split <;> rfl

/-- `add_matching_skill` never touches the missing list. -/
theorem heapAddMatching_missing (st : GapStateH) (ref : Nat) :
    (heapAddMatching st ref).missing = st.missing := by
  unfold heapAddMatching
  split <;> rfl

/-- The categorisation loop writes only to references at or past `N`
(the aggregates), so the first `N` heap slots stay intact. -/
theorem heapGaps_inv (N : Nat) (heap0 : List Skill) (user : List String)
    (dict : List (String × Nat)) :
    ∀ st : GapStateH,
    st.heap.take N = heap0.take N → N ≤ st.heap.length →
    (∀ kv ∈ dict, N ≤ kv.2) → (∀ r ∈ st.missing, N ≤ r) →
    (dict.foldl (fun st kv =>
        if kv.1 ∈ user then heapAddMatching st kv.2
        else heapAddMissing st kv.2) st).heap.take N = heap0.take N := by
  induction dict with
  | nil => intro st h1 _ _ _; exact h1
  | cons kv rest ih =>
    intro st h1 h2 hd hm
    rw [List.foldl_cons]
    have hdrest : ∀ kv' ∈ rest, N ≤ kv'.2 :=
      fun kv' h => hd kv' (List.mem_cons_of_mem _ h)
    have hdhead : N ≤ kv.2 := (hd kv (by simp))
    by_cases hu : kv.1 ∈ user
    · rw [if_pos hu]
      apply ih
      · rw [heapAddMatching_heap]; exact h1
      · rw [heapAddMatching_heap]; exact h2
      · exact hdrest
      · rw [heapAddMatching_missing]; exact hm
    · rw [if_neg hu]
      cases hf : st.missing.find? (fun r =>
          (st.heap.getD r default).matches (st.heap.getD kv.2 default)) with
      | some r =>
        have hr : N ≤ r := hm r (List.mem_of_find?_eq_some hf)
        have hstep : heapAddMissing st kv.2 = { st with
            heap := st.heap.set r ((st.heap.getD r default).increment_frequency) } := by
          simp only [heapAddMissing, hf]
        rw [hstep]
        apply ih
        · show (st.heap.set r _).take N = heap0.take N
          rw [take_set_of_le _ _ _ _ hr]
          exact h1
        · show N ≤ (st.heap.set r _).length
          rw [List.length_set]
          exact h2
        · exact hdrest
        · exact hm
      | none =>
        have hstep : heapAddMissing st kv.2 = { st with
            heap := st.heap.set kv.2
              { (st.heap.getD kv.2 default) with frequency := 1 }
            missing := st.missing ++ [kv.2] } := by
          simp only [heapAddMissing, hf]
        rw [hstep]
        apply ih
        · show (st.heap.set kv.2 _).take N = heap0.take N
          rw [take_set_of_le _ _ _ _ hdhead]
          exact h1
        · show N ≤ (st.heap.set kv.2 _).length
          rw [List.length_set]
          exact h2
        · exact hdrest
        · intro r hrm
          rcases List.mem_append.mp hrm with h | h
          · exact hm r h
          · rcases (by simpa using h : r = kv.2) with rfl
            exact hdhead

/-- C9.  `_identify_skill_gaps` never mutates its inputs: for every
initial skill heap, resume and job list, every `Skill` object that
existed before the call (heap slots `0 .. heap.length - 1`, i.e. all
skills reachable from the resume and the jobs) is unchanged afterwards,
name, category, technical flag and frequency included.  The `skills` /
`required_skills` reference lists are plain values in the embedding
because the source never assigns them. -/
theorem identify_gaps_preserves_inputs (heap : List Skill) (resume : ResumeR)
    (jobs : List JobR) :
    (identify_gaps_heap heap resume jobs).heap.take heap.length = heap := by
  have hflat := foldl_flatMap heapCollectStep (fun j => j.required_skills) jobs
    ((heap, []) : List Skill × List (String × Nat))
  obtain ⟨h1, h2, h3⟩ := heapCollect_inv heap.length heap
    (jobs.flatMap (fun j => j.required_skills)) (heap, []) rfl (le_refl _)
    (by intro kv h; cases h)
  rw [← hflat] at h1 h2 h3
  have hfin := heapGaps_inv heap.length heap
    (resume.skills.map (fun r => pyLower
      (((jobs.foldl (fun st job => job.required_skills.foldl heapCollectStep st)
          ((heap, []) : List Skill × List (String × Nat))).1.getD r default).name)))
    (jobs.foldl (fun st job => job.required_skills.foldl heapCollectStep st)
      ((heap, []) : List Skill × List (String × Nat))).2
    ⟨(jobs.foldl (fun st job => job.required_skills.foldl heapCollectStep st)
      ((heap, []) : List Skill × List (String × Nat))).1, [], []⟩
    h1 h2 (fun kv h => (h3 kv h).1) (by intro r h; cases h)
  have hid : (identify_gaps_heap heap resume jobs).heap.take heap.length =
      heap.take heap.length := hfin
  rw [hid, List.take_length]
